import Mathlib

/-!
Verification of the `dynamic-struct` derive macro (src/src/lib.rs).

The crate is a proc-macro: `derive_dynamic` takes a `DeriveInput` (struct
name, data shape, struct-level attributes) and emits an `impl` block with
three families of methods:

  * `updated_*` (notify) methods — one per field, whose body calls the
    `update_*` method of every field that directly depends on it;
  * `update_*` (setter) methods with a `value` parameter — one per
    non-dynamic (stored) field, assigning the field then calling its
    `updated_*` method;
  * `update_*` (trigger) methods — one per dynamic (computed) field,
    calling the field's compute method then its `updated_*` method.

We shallowly embed the macro: identifiers become `String`s, the syn data
shape becomes an inductive, the emitted token stream becomes a list of
`Method` values whose bodies are lists of statements.  The Rust
`HashMap`/`HashSet` pair used for the inverse dependency map is modelled
as an insertion-ordered association list with insertion-ordered
duplicate-free entry lists; no claim below depends on iteration order
across distinct dependents, only on the multiset of generated calls.
Panics in the Rust code (`panic!`, `expect`) abort the whole derive, so
the embedding returns `Except DeriveError`.
-/

namespace DynStruct

/-- Parsed arguments of a field-level `#[dynamic(...)]` attribute
(struct `DynamicField` in src/src/lib.rs): the tuple of dependency names
and the compute method name. -/
structure DynamicField where
  dependencies : List String
  method_name : String
deriving DecidableEq, Repr

/-- A field attribute as the macro sees it: its path, and — when the path
is the dynamic marker — the result of `parse_args::<DynamicField>`
(`none` models arguments that fail to parse). -/
structure Attr where
  path : String
  args : Option DynamicField
deriving DecidableEq, Repr

/-- A named struct field: identifier, type (opaque, passed through
verbatim) and its attribute list. -/
structure Field where
  ident : String
  ty : String
  attrs : List Attr
deriving DecidableEq, Repr

/-- The `syn::Fields` shape of a struct. -/
inductive StructFields where
  | named (fields : List Field)
  | unnamed
  | unit
deriving DecidableEq, Repr

/-- The `syn::Data` shape of the derive input. -/
inductive Data where
  | structData (fields : StructFields)
  | enumData
  | unionData
deriving DecidableEq, Repr

/-- The struct-level `#[dynamic(...)]` naming configuration (struct
`Dynamic` in src/src/lib.rs); fields model `updated_prefix`,
`updated_suffix`, `setter_prefix`, `setter_suffix`, `update_prefix`,
`update_suffix`. -/
structure Dynamic where
  updated_pre : Option String
  updated_suf : Option String
  setter_pre : Option String
  setter_suf : Option String
  update_pre : Option String
  update_suf : Option String
deriving DecidableEq, Repr

/-- Models `Dynamic::default()`: every override unset. -/
def Dynamic.defaultConfig : Dynamic :=
  ⟨none, none, none, none, none, none⟩

/-- The derive input: struct identifier, data shape, and the struct-level
config (already structured by the `bae` front end; `none` when the struct
carries no dynamic attribute). -/
structure DeriveInput where
  ident : String
  data : Data
  config : Option Dynamic
deriving DecidableEq, Repr

/-- The ways `derive_dynamic` aborts: the two `panic!` calls on
unsupported input shapes, and the `expect` on a malformed field
attribute. -/
inductive DeriveError where
  | unsupportedShape (msg : String)
  | invalidAttr
deriving DecidableEq, Repr

/-- A statement of a generated method body. -/
inductive Stmt where
  | assignField (f : String)
  | callMethod (m : String)
deriving DecidableEq, Repr

/-- A generated method: its name, whether it takes a `value` parameter
(setters do), and its body. -/
structure Method where
  name : String
  takesValue : Bool
  body : List Stmt
deriving DecidableEq, Repr

/-- Constant `DYNAMIC_ATTR_NAME` in src/src/lib.rs. -/
def DYNAMIC_ATTR_NAME : String := "dynamic"

/-- Constant `DEFAULT_UPDATED_METHOD_PREFIX`. -/
def DEFAULT_UPDATED_METHOD_PRE : String := "updated_"

/-- Constant `DEFAULT_UPDATED_METHOD_SUFFIX`. -/
def DEFAULT_UPDATED_METHOD_SUF : String := ""

/-- Constant `DEFAULT_UPDATE_METHOD_PREFIX`. -/
def DEFAULT_UPDATE_METHOD_PRE : String := "update_"

/-- Constant `DEFAULT_UPDATE_METHOD_SUFFIX`. -/
def DEFAULT_UPDATE_METHOD_SUF : String := ""

/-- Constant `DEFAULT_SETTER_METHOD_PREFIX`. -/
def DEFAULT_SETTER_METHOD_PRE : String := "update_"

/-- Constant `DEFAULT_SETTER_METHOD_SUFFIX`. -/
def DEFAULT_SETTER_METHOD_SUF : String := ""

/-- Models `create_ident`, which renders `format_ident` of the prefix, the field ident and the suffix. -/
def create_ident (ident pre suf : String) : String :=
  pre ++ ident ++ suf

/-- The struct-level config after `unwrap_or_default()`. -/
def cfgOf (c : Option Dynamic) : Dynamic :=
  c.getD Dynamic.defaultConfig

/-- Resolution of `updated_method_prefix`. -/
def updatedPreOf (c : Option Dynamic) : String :=
  (cfgOf c).updated_pre.getD DEFAULT_UPDATED_METHOD_PRE

/-- Resolution of `updated_method_suffix`. -/
def updatedSufOf (c : Option Dynamic) : String :=
  (cfgOf c).updated_suf.getD DEFAULT_UPDATED_METHOD_SUF

/-- Resolution of `setter_method_prefix`. -/
def setterPreOf (c : Option Dynamic) : String :=
  (cfgOf c).setter_pre.getD DEFAULT_SETTER_METHOD_PRE

/-- Resolution of `setter_method_suffix`. -/
def setterSufOf (c : Option Dynamic) : String :=
  (cfgOf c).setter_suf.getD DEFAULT_SETTER_METHOD_SUF

/-- Resolution of `update_method_prefix`. -/
def updatePreOf (c : Option Dynamic) : String :=
  (cfgOf c).update_pre.getD DEFAULT_UPDATE_METHOD_PRE

/-- Resolution of `update_method_suffix`. -/
def updateSufOf (c : Option Dynamic) : String :=
  (cfgOf c).update_suf.getD DEFAULT_UPDATE_METHOD_SUF

/-- Models `create_updated_ident`. -/
def create_updated_ident (c : Option Dynamic) (ident : String) : String :=
  create_ident ident (updatedPreOf c) (updatedSufOf c)

/-- Models `create_setter_ident`. -/
def create_setter_ident (c : Option Dynamic) (ident : String) : String :=
  create_ident ident (setterPreOf c) (setterSufOf c)

/-- Models `create_update_ident`. -/
def create_update_ident (c : Option Dynamic) (ident : String) : String :=
  create_ident ident (updatePreOf c) (updateSufOf c)

/-- The `find` over a field's attributes for the first one whose path is
the dynamic marker. -/
def findDynamicAttr (f : Field) : Option Attr :=
  f.attrs.find? (fun a => a.path = DYNAMIC_ATTR_NAME)

/-- One step of the map inside the `partition` pipeline: locate the first
dynamic attribute of the field and parse its arguments; a present but
malformed attribute hits the `expect` and aborts the derive. -/
def parseFieldDynamic (f : Field) :
    Except DeriveError (Field × Option DynamicField) :=
  match findDynamicAttr f with
  | none => .ok (f, none)
  | some a =>
    match a.args with
    | some d => .ok (f, some d)
    | none => .error .invalidAttr

/-- The map over all fields (the iterator is driven by `partition`, so the
first malformed attribute aborts everything); written as the explicit
recursion equivalent to `mapM parseFieldDynamic`. -/
def parseFields : List Field →
    Except DeriveError (List (Field × Option DynamicField))
  | [] => .ok []
  | f :: rest =>
    match parseFieldDynamic f with
    | .error e => .error e
    | .ok p =>
      match parseFields rest with
      | .error e => .error e
      | .ok ps => .ok (p :: ps)

/-- Models the partition on `dynamic.is_some()`: dynamic fields (with
their parsed attribute, later `unwrap`ped) first, non-dynamic fields
second; relative order is preserved in both. -/
def partitioned (ps : List (Field × Option DynamicField)) :
    List (Field × DynamicField) × List Field :=
  (ps.filterMap (fun p => (p.2).map (fun d => (p.1, d))),
   (ps.filter (fun p => p.2.isNone)).map (fun p => p.1))

/-- Lookup (the `HashMap` get) on the modelled inverse dependency map. -/
def invLookup : List (String × List String) → String → Option (List String)
  | [], _ => none
  | (k, vs) :: rest, x => if k = x then some vs else invLookup rest x

/-- One `inv_map.entry(dependency).and_modify(insert).or_insert_with`
step: add `fieldName` to the entry of `dep`, creating it if missing; the
`HashSet` is modelled as an insertion-ordered duplicate-free list. -/
def invInsert (m : List (String × List String)) (dep fieldName : String) :
    List (String × List String) :=
  match m with
  | [] => [(dep, [fieldName])]
  | (k, vs) :: rest =>
    if k = dep then
      (k, if fieldName ∈ vs then vs else vs ++ [fieldName]) :: rest
    else
      (k, vs) :: invInsert rest dep fieldName

/-- Building `inv_map`: for every dynamic field, for every declared
dependency, record the field as a dependent of that dependency. -/
def buildInvMap (dyns : List (Field × DynamicField)) :
    List (String × List String) :=
  dyns.foldl
    (fun m fd =>
      fd.2.dependencies.foldl (fun m2 dep => invInsert m2 dep fd.1.ident) m)
    []

/-- Models `inv_map.remove(field_name)`: the removed entry (if any) and the
remaining map. -/
def invRemove (m : List (String × List String)) (k : String) :
    Option (List String) × List (String × List String) :=
  match m with
  | [] => (none, [])
  | (k0, vs) :: rest =>
    if k0 = k then (some vs, rest)
    else
      let r := invRemove rest k
      (r.1, (k0, vs) :: r.2)

/-- The `updated_methods` loop: one notify method per field, in field
order, whose body calls `create_update_ident` of every recorded direct
dependent; the entry is `remove`d from the map as the loop goes. -/
def updatedMethodsGo (upPre upSuf trPre trSuf : String) :
    List Field → List (String × List String) → List Method
  | [], _ => []
  | f :: rest, m =>
    let r := invRemove m f.ident
    { name := create_ident f.ident upPre upSuf,
      takesValue := false,
      body := (r.1.getD []).map
        (fun d => Stmt.callMethod (create_ident d trPre trSuf)) }
      :: updatedMethodsGo upPre upSuf trPre trSuf rest r.2

/-- The `setter_methods` loop over non-dynamic fields: assign the value,
then call the field's notify method. -/
def setterMethods (sPre sSuf upPre upSuf : String) (fs : List Field) :
    List Method :=
  fs.map (fun f =>
    { name := create_ident f.ident sPre sSuf,
      takesValue := true,
      body := [Stmt.assignField f.ident,
               Stmt.callMethod (create_ident f.ident upPre upSuf)] })

/-- The `update_methods` loop over dynamic fields: call the declared
compute method, then the field's notify method. -/
def updateMethods (uPre uSuf upPre upSuf : String)
    (ds : List (Field × DynamicField)) : List Method :=
  ds.map (fun fd =>
    { name := create_ident fd.1.ident uPre uSuf,
      takesValue := false,
      body := [Stmt.callMethod fd.2.method_name,
               Stmt.callMethod (create_ident fd.1.ident upPre upSuf)] })

/-- Models `derive_dynamic` (src/src/lib.rs, lines 182-354): validate the input
shape, parse the field attributes, build the inverse dependency map, and
emit the three method families inside one `impl` block. -/
def derive_dynamic (input : DeriveInput) :
    Except DeriveError (String × List Method) :=
  match input.data with
  | .structData (.named fields) =>
    match parseFields fields with
    | .error e => .error e
    | .ok ps =>
      let c := input.config
      let dyns := (partitioned ps).1
      let nons := (partitioned ps).2
      let inv_map := buildInvMap dyns
      .ok (input.ident,
        updatedMethodsGo (updatedPreOf c) (updatedSufOf c)
            (updatePreOf c) (updateSufOf c) fields inv_map
          ++ setterMethods (setterPreOf c) (setterSufOf c)
            (updatedPreOf c) (updatedSufOf c) nons
          ++ updateMethods (updatePreOf c) (updateSufOf c)
            (updatedPreOf c) (updatedSufOf c) dyns)
  | .structData _ =>
    .error (.unsupportedShape "Only structs with named fields currently supported!")
  | _ =>
    .error (.unsupportedShape "Only structs currently supported!")

/-! ## Runtime semantics of the generated methods

The emitted methods are ordinary inherent methods calling each other by
name.  To reason about what one call of a generated method does at run
time we interpret a method list: a call to a generated method expands
into its body, a call to any other name (the user's compute procedures
such as `calculate_c`) is recorded as an event, and an assignment is
recorded as an event.  Recursion is fuel-bounded so that the interpreter
is total even on the cyclic call graphs the macro happily emits. -/

/-- An observable event of running generated code: a field assignment or
a call to a non-generated (user) method. -/
inductive Event where
  | assigned (f : String)
  | called (m : String)
deriving DecidableEq, Repr

/-- Method lookup by name in the emitted impl block. -/
def findMethod (ms : List Method) (name : String) : Option Method :=
  ms.find? (fun m => m.name = name)

/-- Run a statement list against the emitted methods, with fuel bounding
the call depth; `none` means the fuel ran out. -/
def execStmts (ms : List Method) : Nat → List Stmt → Option (List Event)
  | _, [] => some []
  | 0, _ :: _ => none
  | fuel + 1, Stmt.assignField f :: rest =>
    (execStmts ms fuel rest).map (fun t => Event.assigned f :: t)
  | fuel + 1, Stmt.callMethod m :: rest =>
    match findMethod ms m with
    | some meth =>
      match execStmts ms fuel meth.body with
      | none => none
      | some t1 =>
        match execStmts ms fuel rest with
        | none => none
        | some t2 => some (t1 ++ t2)
    | none => (execStmts ms fuel rest).map (fun t => Event.called m :: t)

/-- Run one call of the named generated method. -/
def runMethod (ms : List Method) (fuel : Nat) (name : String) :
    Option (List Event) :=
  execStmts ms fuel [Stmt.callMethod name]

/-! ## Concrete schemas used by individual claims -/

/-- A field with no dynamic attribute (a stored field). -/
def storedField (name ty : String) : Field :=
  ⟨name, ty, []⟩

/-- A field carrying one well-formed dynamic attribute. -/
def computedField (name ty : String) (deps : List String)
    (proc : String) : Field :=
  ⟨name, ty, [⟨DYNAMIC_ATTR_NAME, some ⟨deps, proc⟩⟩]⟩

/-- The diamond schema: `b` and `d` each depend on `a`, and `c` depends
on both `b` and `d`. -/
def diamondFields : List Field :=
  [storedField "a" "u32",
   computedField "b" "u32" ["a"] "calc_b",
   computedField "d" "u32" ["a"] "calc_d",
   computedField "c" "u32" ["b", "d"] "calc_c"]

/-- The derive input for the diamond schema, default naming. -/
def diamondInput : DeriveInput :=
  ⟨"Diamond", .structData (.named diamondFields), none⟩

/-- The methods the macro generates for the diamond schema. -/
def diamondMethods : List Method :=
  ((derive_dynamic diamondInput).toOption.map (fun p => p.2)).getD []

/-- A schema in which field `c` declares the dependency `z` although no
field `z` exists. -/
def unknownDepFields : List Field :=
  [storedField "a" "u32",
   computedField "c" "u32" ["z"] "calc_c"]

/-- The derive input for the unknown-dependency schema. -/
def unknownDepInput : DeriveInput :=
  ⟨"Demo", .structData (.named unknownDepFields), none⟩

/-! ## Characterization of the inverse dependency map -/

/-- The effect of one `invInsert` on an entry list: append the name if it
is not already present. -/
def insertEntry (e : List String) (n : String) : List String :=
  if n ∈ e then e else e ++ [n]

/-- The direct-dependent list of `y` read straight off the schema: the
dynamic fields whose dependency tuple mentions `y`, in declaration
order. -/
def dependentsOf (dyns : List (Field × DynamicField)) (y : String) :
    List String :=
  (dyns.filter (fun fd => decide (y ∈ fd.2.dependencies))).map
    (fun fd => fd.1.ident)

theorem mem_insertEntry_self (e : List String) (n : String) :
    n ∈ insertEntry e n := by
  unfold insertEntry
  split
  · assumption
  · simp

theorem insertEntry_of_mem {e : List String} {n : String} (h : n ∈ e) :
    insertEntry e n = e := by
  unfold insertEntry
  exact if_pos h

theorem invLookup_invInsert_self (m : List (String × List String))
    (d n : String) :
    invLookup (invInsert m d n) d =
      some (insertEntry ((invLookup m d).getD []) n) := by
  induction m with
  | nil => simp [invInsert, invLookup, insertEntry]
  | cons p rest ih =>
    by_cases hk : p.1 = d
    · simp [invInsert, hk, invLookup, insertEntry]
    · simp [invInsert, hk, invLookup, ih]

theorem invLookup_invInsert_ne {k d : String} (h : k ≠ d)
    (m : List (String × List String)) (n : String) :
    invLookup (invInsert m d n) k = invLookup m k := by
  have hdk : ¬ d = k := fun hc => h hc.symm
  induction m with
  | nil => simp [invInsert, invLookup, hdk]
  | cons p rest ih =>
    by_cases hk : p.1 = d
    · simp [invInsert, invLookup, hk, hdk]
    · by_cases hpk : p.1 = k
      · simp [invInsert, invLookup, hk, hpk, h]
      · simp [invInsert, invLookup, hk, hpk, ih]

/-- Folding the dependency tuple of one dynamic field into the map only
touches the entries named in the tuple, where it inserts the field. -/
theorem invLookup_foldl_deps (n : String) (deps : List String) :
    ∀ (m : List (String × List String)) (y : String),
      invLookup (deps.foldl (fun m2 dep => invInsert m2 dep n) m) y =
        if y ∈ deps then some (insertEntry ((invLookup m y).getD []) n)
        else invLookup m y := by
  induction deps with
  | nil => intro m y; simp
  | cons d rest ih =>
    intro m y
    simp only [List.foldl_cons]
    rw [ih]
    by_cases hyd : y = d
    · subst hyd
      by_cases hyr : y ∈ rest
      · rw [if_pos hyr, if_pos (by simp), invLookup_invInsert_self]
        simp [insertEntry_of_mem (mem_insertEntry_self _ _)]
      · rw [if_neg hyr, if_pos (by simp), invLookup_invInsert_self]
    · rw [invLookup_invInsert_ne hyd]
      by_cases hyr : y ∈ rest
      · rw [if_pos hyr, if_pos (by simp [hyr])]
      · rw [if_neg hyr, if_neg (by simp [hyr, hyd])]

/-- Folding a list of dynamic fields into the map appends, to each entry,
the idents of the fields that list that entry's key, provided the incoming
idents are fresh for the entry and mutually distinct. -/
theorem invLookup_foldl_dyns (y : String) :
    ∀ (dyns : List (Field × DynamicField))
      (m : List (String × List String)),
      (∀ fd ∈ dyns, fd.1.ident ∉ (invLookup m y).getD []) →
      (dyns.map (fun fd => fd.1.ident)).Nodup →
      (invLookup
          (dyns.foldl
            (fun m2 fd =>
              fd.2.dependencies.foldl
                (fun m3 dep => invInsert m3 dep fd.1.ident) m2)
            m) y).getD [] =
        (invLookup m y).getD [] ++ dependentsOf dyns y := by
  intro dyns
  induction dyns with
  | nil => intro m _ _; simp [dependentsOf]
  | cons fd rest ih =>
    intro m hfresh hnd
    simp only [List.foldl_cons]
    have hstep := invLookup_foldl_deps fd.1.ident fd.2.dependencies m y
    by_cases hy : y ∈ fd.2.dependencies
    · rw [if_pos hy] at hstep
      have hfd : fd.1.ident ∉ (invLookup m y).getD [] :=
        hfresh fd (by simp)
      have hset : (invLookup
          (fd.2.dependencies.foldl
            (fun m3 dep => invInsert m3 dep fd.1.ident) m) y).getD [] =
          (invLookup m y).getD [] ++ [fd.1.ident] := by
        rw [hstep]
        simp [insertEntry, hfd]
      rw [ih _ ?fresh ?nd, hset]
      case fresh =>
        intro fd2 h2
        rw [hset]
        simp only [List.mem_append, List.mem_singleton]
        rintro (hc | hc)
        · exact hfresh fd2 (by simp [h2]) hc
        · have : fd.1.ident ∈ rest.map (fun fd => fd.1.ident) := by
            rw [← hc]
            exact List.mem_map_of_mem _ h2
          exact (List.nodup_cons.mp hnd).1 this
      case nd => exact (List.nodup_cons.mp hnd).2
      simp [dependentsOf, hy]
    · rw [if_neg hy] at hstep
      have hset : invLookup
          (fd.2.dependencies.foldl
            (fun m3 dep => invInsert m3 dep fd.1.ident) m) y =
          invLookup m y := hstep
      rw [ih _ ?fresh2 ?nd2, hset]
      case fresh2 =>
        intro fd2 h2
        rw [hset]
        exact hfresh fd2 (by simp [h2])
      case nd2 => exact (List.nodup_cons.mp hnd).2
      simp [dependentsOf, hy]

/-- The entry of `y` in the finished inverse dependency map is exactly
the declaration-ordered list of dynamic fields whose dependency tuple
mentions `y` (given distinct dynamic field names). -/
theorem invLookup_buildInvMap {dyns : List (Field × DynamicField)}
    (hnd : (dyns.map (fun fd => fd.1.ident)).Nodup) (y : String) :
    (invLookup (buildInvMap dyns) y).getD [] = dependentsOf dyns y := by
  have h := invLookup_foldl_dyns y dyns [] (by intro fd _; simp [invLookup]) hnd
  simpa [buildInvMap, invLookup] using h

/-- The entry lists of the inverse dependency map are duplicate-free
(given distinct dynamic field names). -/
theorem dependentsOf_nodup {dyns : List (Field × DynamicField)}
    (hnd : (dyns.map (fun fd => fd.1.ident)).Nodup) (y : String) :
    (dependentsOf dyns y).Nodup := by
  unfold dependentsOf
  have hsub : ((dyns.filter (fun fd => decide (y ∈ fd.2.dependencies))).map
      (fun fd => fd.1.ident)).Sublist (dyns.map (fun fd => fd.1.ident)) :=
    (List.filter_sublist _).map _
  exact hsub.nodup hnd

/-- Membership in the direct-dependent list. -/
theorem mem_dependentsOf {dyns : List (Field × DynamicField)}
    {y d : String} :
    d ∈ dependentsOf dyns y ↔
      ∃ fd, fd ∈ dyns ∧ fd.1.ident = d ∧ y ∈ fd.2.dependencies := by
  simp only [dependentsOf, List.mem_map, List.mem_filter]
  constructor
  · rintro ⟨fd, ⟨h1, h2⟩, h3⟩
    exact ⟨fd, h1, h3, by simpa using h2⟩
  · rintro ⟨fd, h1, h2, h3⟩
    exact ⟨fd, ⟨h1, by simpa using h3⟩, h2⟩

/-! ## The remove-as-you-go loop of `updated_methods` -/

theorem invRemove_fst (m : List (String × List String)) (k : String) :
    (invRemove m k).1 = invLookup m k := by
  induction m with
  | nil => simp [invRemove, invLookup]
  | cons p rest ih =>
    by_cases hk : p.1 = k
    · simp [invRemove, invLookup, hk]
    · simp [invRemove, invLookup, hk, ih]

theorem invLookup_invRemove_ne {j k : String} (h : j ≠ k)
    (m : List (String × List String)) :
    invLookup (invRemove m k).2 j = invLookup m j := by
  have hkj : ¬ k = j := fun hc => h hc.symm
  induction m with
  | nil => simp [invRemove]
  | cons p rest ih =>
    by_cases hk : p.1 = k
    · simp [invRemove, invLookup, hk, hkj]
    · by_cases hpj : p.1 = j
      · simp [invRemove, invLookup, hk, hpj, h]
      · simp [invRemove, invLookup, hk, hpj, ih]

/-- Under distinct field names, the remove-as-you-go loop is a plain map:
each field gets one notify method whose body calls the trigger of every
recorded direct dependent. -/
theorem updatedMethodsGo_eq_map (upPre upSuf trPre trSuf : String) :
    ∀ (fs : List Field) (m : List (String × List String)),
      (fs.map Field.ident).Nodup →
      updatedMethodsGo upPre upSuf trPre trSuf fs m =
        fs.map (fun f =>
          { name := create_ident f.ident upPre upSuf,
            takesValue := false,
            body := ((invLookup m f.ident).getD []).map
              (fun d => Stmt.callMethod (create_ident d trPre trSuf)) }) := by
  intro fs
  induction fs with
  | nil => intro m _; simp [updatedMethodsGo]
  | cons f rest ih =>
    intro m hnd
    simp only [List.map_cons, List.nodup_cons] at hnd
    simp only [updatedMethodsGo, List.map_cons]
    rw [invRemove_fst, ih _ hnd.2]
    congr 1
    apply List.map_congr_left
    intro f2 h2
    have hne : f2.ident ≠ f.ident := by
      intro hc
      exact hnd.1 (hc ▸ List.mem_map_of_mem Field.ident h2)
    rw [invLookup_invRemove_ne hne]

/-- The notify-method names are one per field, in field order, with no
distinctness assumption. -/
theorem updatedMethodsGo_names (upPre upSuf trPre trSuf : String) :
    ∀ (fs : List Field) (m : List (String × List String)),
      (updatedMethodsGo upPre upSuf trPre trSuf fs m).map Method.name =
        fs.map (fun f => create_ident f.ident upPre upSuf) := by
  intro fs
  induction fs with
  | nil => intro m; simp [updatedMethodsGo]
  | cons f rest ih =>
    intro m
    simp [updatedMethodsGo, ih]

/-! ## The attribute parsing pipeline -/

theorem parseFieldDynamic_fst {f : Field} {p : Field × Option DynamicField}
    (h : parseFieldDynamic f = .ok p) : p.1 = f := by
  unfold parseFieldDynamic at h
  split at h
  · rw [← Except.ok.inj h]
  · split at h
    · rw [← Except.ok.inj h]
    · exact Except.noConfusion h

theorem parseFields_fst :
    ∀ {fs : List Field} {ps : List (Field × Option DynamicField)},
      parseFields fs = .ok ps → ps.map Prod.fst = fs := by
  intro fs
  induction fs with
  | nil =>
    intro ps h
    simp only [parseFields] at h
    rw [← Except.ok.inj h]
    rfl
  | cons f rest ih =>
    intro ps h
    simp only [parseFields] at h
    cases hpd : parseFieldDynamic f with
    | error e => simp only [hpd] at h; exact Except.noConfusion h
    | ok p =>
      simp only [hpd] at h
      cases hrest : parseFields rest with
      | error e => simp only [hrest] at h; exact Except.noConfusion h
      | ok ps2 =>
        simp only [hrest] at h
        rw [← Except.ok.inj h]
        simp [parseFieldDynamic_fst hpd, ih hrest]

theorem partitioned_fst_sublist (ps : List (Field × Option DynamicField)) :
    ((partitioned ps).1.map (fun fd => fd.1)).Sublist (ps.map Prod.fst) := by
  induction ps with
  | nil => simp [partitioned]
  | cons p rest ih =>
    have ih2 : ((partitioned rest).1.map (fun fd => fd.1)).Sublist
        (rest.map Prod.fst) := ih
    cases hp2 : p.2 with
    | none =>
      simp only [partitioned, List.filterMap_cons, hp2, List.map_cons]
      exact ih2.cons p.1
    | some d =>
      simp only [partitioned, List.filterMap_cons, hp2, Option.map_some',
        List.map_cons]
      exact ih2.cons₂ p.1

theorem dyns_idents_nodup {fs : List Field}
    {ps : List (Field × Option DynamicField)}
    (hp : parseFields fs = .ok ps)
    (hnd : (fs.map Field.ident).Nodup) :
    ((partitioned ps).1.map (fun fd => fd.1.ident)).Nodup := by
  have hfs : ps.map Prod.fst = fs := parseFields_fst hp
  have h3 : (((partitioned ps).1.map (fun fd => fd.1)).map
      Field.ident).Sublist (fs.map Field.ident) := by
    have h4 := (partitioned_fst_sublist ps).map Field.ident
    rwa [hfs] at h4
  have h5 := h3.nodup hnd
  simpa [List.map_map, Function.comp] using h5

/-! ## Normal form of a successful derive -/

/-- What `derive_dynamic` emits on a named-field struct whose attributes
all parse, with distinct field names: one notify method per field calling
the triggers of its direct dependents, one setter per non-dynamic field,
one trigger per dynamic field. -/
theorem derive_dynamic_named (ident : String) (cfg : Option Dynamic)
    {fs : List Field} {ps : List (Field × Option DynamicField)}
    (hp : parseFields fs = .ok ps)
    (hnd : (fs.map Field.ident).Nodup) :
    derive_dynamic ⟨ident, .structData (.named fs), cfg⟩ =
      .ok (ident,
        fs.map (fun f =>
          { name := create_updated_ident cfg f.ident,
            takesValue := false,
            body := (dependentsOf (partitioned ps).1 f.ident).map
              (fun d => Stmt.callMethod (create_update_ident cfg d)) })
        ++ setterMethods (setterPreOf cfg) (setterSufOf cfg)
            (updatedPreOf cfg) (updatedSufOf cfg) (partitioned ps).2
        ++ updateMethods (updatePreOf cfg) (updateSufOf cfg)
            (updatedPreOf cfg) (updatedSufOf cfg) (partitioned ps).1) := by
  have hdnd := dyns_idents_nodup hp hnd
  simp only [derive_dynamic]
  rw [hp]
  simp only []
  rw [updatedMethodsGo_eq_map _ _ _ _ fs _ hnd]
  simp only [invLookup_buildInvMap hdnd, create_updated_ident,
    create_update_ident]

/-- Prefixing and suffixing with fixed strings is injective in the field
name, so distinct dependents render as distinct generated calls. -/
theorem create_ident_inj {pre suf x y : String}
    (h : create_ident x pre suf = create_ident y pre suf) : x = y := by
  unfold create_ident at h
  have h2 := congrArg String.data h
  simp only [String.data_append] at h2
  rw [List.append_assoc, List.append_assoc] at h2
  have h3 := List.append_cancel_right (List.append_cancel_left h2)
  cases x
  cases y
  simp_all

/-- The parse result of the diamond schema. -/
def diamondParsed : List (Field × Option DynamicField) :=
  [(storedField "a" "u32", none),
   (computedField "b" "u32" ["a"] "calc_b", some ⟨["a"], "calc_b"⟩),
   (computedField "d" "u32" ["a"] "calc_d", some ⟨["a"], "calc_d"⟩),
   (computedField "c" "u32" ["b", "d"] "calc_c", some ⟨["b", "d"], "calc_c"⟩)]

/-- C2: on every valid schema the generated operation set is exactly one
notify method per field (emitted even when its direct-dependent set is
empty, in which case its body performs zero calls), plus one setter per
stored (non-dynamic) field, plus one trigger per computed (dynamic)
field, and nothing else: the name list of the emitted impl block is
precisely those three families. -/
theorem claim_C2 (ident : String) (cfg : Option Dynamic)
    (fs : List Field) (ps : List (Field × Option DynamicField))
    (hp : parseFields fs = .ok ps)
    (hnd : (fs.map Field.ident).Nodup) :
    ∃ ms,
      derive_dynamic ⟨ident, .structData (.named fs), cfg⟩ = .ok (ident, ms)
      ∧ ms.map Method.name =
          fs.map (fun f => create_updated_ident cfg f.ident)
          ++ (partitioned ps).2.map (fun f => create_setter_ident cfg f.ident)
          ++ (partitioned ps).1.map (fun fd => create_update_ident cfg fd.1.ident)
      ∧ ∀ f ∈ fs, dependentsOf (partitioned ps).1 f.ident = [] →
          ({ name := create_updated_ident cfg f.ident,
             takesValue := false, body := [] } : Method) ∈ ms := by
  refine ⟨_, derive_dynamic_named ident cfg hp hnd, ?_, ?_⟩
  · simp [setterMethods, updateMethods, List.map_map, Function.comp_def,
      create_setter_ident, create_update_ident, create_updated_ident]
  · intro f hf hdeps
    apply List.mem_append_left
    apply List.mem_append_left
    refine List.mem_map.mpr ⟨f, hf, ?_⟩
    simp [hdeps]

/-- Witness for C2 at the diamond schema. -/
theorem claim_C2_witness :
    (parseFields diamondFields = .ok diamondParsed
      ∧ (diamondFields.map Field.ident).Nodup)
    ∧ ∃ ms,
      derive_dynamic ⟨"Diamond", .structData (.named diamondFields), none⟩ =
        .ok ("Diamond", ms)
      ∧ ms.map Method.name =
          diamondFields.map (fun f => create_updated_ident none f.ident)
          ++ (partitioned diamondParsed).2.map
              (fun f => create_setter_ident none f.ident)
          ++ (partitioned diamondParsed).1.map
              (fun fd => create_update_ident none fd.1.ident)
      ∧ ∀ f ∈ diamondFields,
          dependentsOf (partitioned diamondParsed).1 f.ident = [] →
          ({ name := create_updated_ident none f.ident,
             takesValue := false, body := [] } : Method) ∈ ms :=
  ⟨⟨rfl, by decide⟩,
   claim_C2 "Diamond" none diamondFields diamondParsed rfl (by decide)⟩

/-- C3: every stored (non-dynamic) field gets a setter whose body is
exactly the assignment of the incoming value followed by the call of the
field's own notify method, in that order. -/
theorem claim_C3 (ident : String) (cfg : Option Dynamic)
    (fs : List Field) (ps : List (Field × Option DynamicField)) (f : Field)
    (hp : parseFields fs = .ok ps)
    (hf : f ∈ (partitioned ps).2) :
    ∃ ms,
      derive_dynamic ⟨ident, .structData (.named fs), cfg⟩ = .ok (ident, ms)
      ∧ ({ name := create_setter_ident cfg f.ident,
           takesValue := true,
           body := [Stmt.assignField f.ident,
                    Stmt.callMethod (create_updated_ident cfg f.ident)] } :
          Method) ∈ ms := by
  simp only [derive_dynamic]
  rw [hp]
  refine ⟨_, rfl, ?_⟩
  apply List.mem_append_left
  apply List.mem_append_right
  simp only [setterMethods]
  refine List.mem_map.mpr ⟨f, hf, ?_⟩
  simp [create_setter_ident, create_updated_ident]

/-- Witness for C3 at the diamond schema's stored field `a`. -/
theorem claim_C3_witness :
    (parseFields diamondFields = .ok diamondParsed
      ∧ storedField "a" "u32" ∈ (partitioned diamondParsed).2)
    ∧ ∃ ms,
      derive_dynamic ⟨"Diamond", .structData (.named diamondFields), none⟩ =
        .ok ("Diamond", ms)
      ∧ ({ name := create_setter_ident none (storedField "a" "u32").ident,
           takesValue := true,
           body := [Stmt.assignField (storedField "a" "u32").ident,
                    Stmt.callMethod
                      (create_updated_ident none
                        (storedField "a" "u32").ident)] } : Method) ∈ ms :=
  ⟨⟨rfl, by decide⟩,
   claim_C3 "Diamond" none diamondFields diamondParsed
     (storedField "a" "u32") rfl (by decide)⟩

/-- C4: every computed (dynamic) field gets a trigger whose body is
exactly the call of its declared compute method followed by the call of
the field's own notify method, in that order. -/
theorem claim_C4 (ident : String) (cfg : Option Dynamic)
    (fs : List Field) (ps : List (Field × Option DynamicField))
    (fd : Field × DynamicField)
    (hp : parseFields fs = .ok ps)
    (hfd : fd ∈ (partitioned ps).1) :
    ∃ ms,
      derive_dynamic ⟨ident, .structData (.named fs), cfg⟩ = .ok (ident, ms)
      ∧ ({ name := create_update_ident cfg fd.1.ident,
           takesValue := false,
           body := [Stmt.callMethod fd.2.method_name,
                    Stmt.callMethod (create_updated_ident cfg fd.1.ident)] } :
          Method) ∈ ms := by
  simp only [derive_dynamic]
  rw [hp]
  refine ⟨_, rfl, ?_⟩
  apply List.mem_append_right
  simp only [updateMethods]
  refine List.mem_map.mpr ⟨fd, hfd, ?_⟩
  simp [create_update_ident, create_updated_ident]

/-- Witness for C4 at the diamond schema's computed field `c`. -/
theorem claim_C4_witness :
    (parseFields diamondFields = .ok diamondParsed
      ∧ (computedField "c" "u32" ["b", "d"] "calc_c",
          (⟨["b", "d"], "calc_c"⟩ : DynamicField)) ∈
            (partitioned diamondParsed).1)
    ∧ ∃ ms,
      derive_dynamic ⟨"Diamond", .structData (.named diamondFields), none⟩ =
        .ok ("Diamond", ms)
      ∧ ({ name := create_update_ident none "c",
           takesValue := false,
           body := [Stmt.callMethod "calc_c",
                    Stmt.callMethod (create_updated_ident none "c")] } :
          Method) ∈ ms :=
  ⟨⟨rfl, by decide⟩,
   claim_C4 "Diamond" none diamondFields diamondParsed
     (computedField "c" "u32" ["b", "d"] "calc_c", ⟨["b", "d"], "calc_c"⟩)
     rfl (by decide)⟩

/-- C5: every field's notify method body is exactly one trigger call per
field in its direct-dependent set; the set is duplicate-free (a dependent
listing the field several times is still called once), membership in it
is exactly direct dependency, and each direct dependent's trigger call
occurs exactly once in the body. -/
theorem claim_C5 (ident : String) (cfg : Option Dynamic)
    (fs : List Field) (ps : List (Field × Option DynamicField)) (f : Field)
    (hp : parseFields fs = .ok ps)
    (hnd : (fs.map Field.ident).Nodup)
    (hf : f ∈ fs) :
    ∃ (ms : List Method) (deps : List String),
      derive_dynamic ⟨ident, .structData (.named fs), cfg⟩ = .ok (ident, ms)
      ∧ ({ name := create_updated_ident cfg f.ident,
           takesValue := false,
           body := deps.map
             (fun d => Stmt.callMethod (create_update_ident cfg d)) } :
          Method) ∈ ms
      ∧ deps.Nodup
      ∧ (∀ d, d ∈ deps ↔
          ∃ fd, fd ∈ (partitioned ps).1 ∧ fd.1.ident = d
            ∧ f.ident ∈ fd.2.dependencies)
      ∧ (∀ fd, fd ∈ (partitioned ps).1 → f.ident ∈ fd.2.dependencies →
          (deps.map (fun d => Stmt.callMethod (create_update_ident cfg d))).count
            (Stmt.callMethod (create_update_ident cfg fd.1.ident)) = 1) := by
  refine ⟨_, dependentsOf (partitioned ps).1 f.ident,
    derive_dynamic_named ident cfg hp hnd, ?_, ?_, ?_, ?_⟩
  · exact List.mem_append_left _
      (List.mem_append_left _ (List.mem_map_of_mem _ hf))
  · exact dependentsOf_nodup (dyns_idents_nodup hp hnd) _
  · intro d; exact mem_dependentsOf
  · intro fd hfd hdep
    have hmem : fd.1.ident ∈ dependentsOf (partitioned ps).1 f.ident :=
      mem_dependentsOf.mpr ⟨fd, hfd, rfl, hdep⟩
    have hinj : Function.Injective
        (fun d => Stmt.callMethod (create_update_ident cfg d)) := by
      intro a b hab
      simp only [Stmt.callMethod.injEq] at hab
      exact create_ident_inj hab
    rw [List.count_map_of_injective _ _ hinj]
    exact List.count_eq_one_of_mem
      (dependentsOf_nodup (dyns_idents_nodup hp hnd) _) hmem

/-- Witness for C5 at the diamond schema's field `a`, whose direct
dependents are `b` and `d`. -/
theorem claim_C5_witness :
    (parseFields diamondFields = .ok diamondParsed
      ∧ (diamondFields.map Field.ident).Nodup
      ∧ storedField "a" "u32" ∈ diamondFields)
    ∧ ∃ (ms : List Method) (deps : List String),
      derive_dynamic ⟨"Diamond", .structData (.named diamondFields), none⟩ =
        .ok ("Diamond", ms)
      ∧ ({ name := create_updated_ident none "a",
           takesValue := false,
           body := deps.map
             (fun d => Stmt.callMethod (create_update_ident none d)) } :
          Method) ∈ ms
      ∧ deps.Nodup
      ∧ (∀ d, d ∈ deps ↔
          ∃ fd, fd ∈ (partitioned diamondParsed).1 ∧ fd.1.ident = d
            ∧ "a" ∈ fd.2.dependencies)
      ∧ (∀ fd, fd ∈ (partitioned diamondParsed).1 →
          "a" ∈ fd.2.dependencies →
          (deps.map (fun d => Stmt.callMethod (create_update_ident none d))).count
            (Stmt.callMethod (create_update_ident none fd.1.ident)) = 1) :=
  ⟨⟨rfl, by decide, by decide⟩,
   claim_C5 "Diamond" none diamondFields diamondParsed
     (storedField "a" "u32") rfl (by decide) (by decide)⟩

/-- C6: on the diamond schema (`b` and `d` depend on `a`, `c` depends on
both `b` and `d`), one call of the generated setter for `a` runs the
compute procedure of `c` exactly twice — once via each reconverging path
(`update_b` and `update_d`); the shared descendant is not deduplicated. -/
theorem claim_C6 :
    derive_dynamic diamondInput = .ok ("Diamond", diamondMethods)
    ∧ runMethod diamondMethods 32 (create_setter_ident none "a") =
        some [Event.assigned "a", Event.called "calc_b",
              Event.called "calc_c", Event.called "calc_d",
              Event.called "calc_c"]
    ∧ ((runMethod diamondMethods 32 (create_setter_ident none "a")).getD
        []).count (Event.called "calc_c") = 2 :=
  ⟨rfl, by decide, by decide⟩

/-- C7: any derive input whose data shape is not a struct with named
fields — a tuple struct, a unit struct, an enum or a union — makes the
derive abort with an unsupported-shape panic; no methods are generated. -/
theorem claim_C7 (input : DeriveInput)
    (h : ∀ fs, input.data ≠ Data.structData (StructFields.named fs)) :
    ∃ msg,
      derive_dynamic input = .error (DeriveError.unsupportedShape msg) := by
  obtain ⟨ident, data, config⟩ := input
  cases data with
  | structData sf =>
    cases sf with
    | named fs => exact absurd rfl (h fs)
    | unnamed => exact ⟨_, rfl⟩
    | unit => exact ⟨_, rfl⟩
  | enumData => exact ⟨_, rfl⟩
  | unionData => exact ⟨_, rfl⟩

/-- Witness for C7 at a tuple struct (positional fields only). -/
theorem claim_C7_witness :
    (∀ fs, (DeriveInput.mk "Demo" (Data.structData StructFields.unnamed)
        none).data ≠ Data.structData (StructFields.named fs))
    ∧ ∃ msg,
      derive_dynamic ⟨"Demo", Data.structData StructFields.unnamed, none⟩ =
        .error (DeriveError.unsupportedShape msg) :=
  ⟨fun fs h => StructFields.noConfusion (Data.structData.inj h),
   claim_C7 ⟨"Demo", Data.structData StructFields.unnamed, none⟩
     (fun fs h => StructFields.noConfusion (Data.structData.inj h))⟩

/-- C8: every generated identifier is the resolved prefix, then the field
name, then the resolved suffix; the defaults are `("updated_", "")` for
notify, `("update_", "")` for trigger and `("update_", "")` for setter;
and overriding only the setter prefix/suffix renames only the setters of
stored fields while notify and trigger names keep their defaults. -/
theorem claim_C8 (ident p s : String) (fs : List Field)
    (ps : List (Field × Option DynamicField))
    (hp : parseFields fs = .ok ps) :
    ∃ ms,
      derive_dynamic ⟨ident, .structData (.named fs),
          some ⟨none, none, some p, some s, none, none⟩⟩ = .ok (ident, ms)
      ∧ ms.map Method.name =
          fs.map (fun f => "updated_" ++ f.ident ++ "")
          ++ (partitioned ps).2.map (fun f => p ++ f.ident ++ s)
          ++ (partitioned ps).1.map (fun fd => "update_" ++ fd.1.ident ++ "")
      ∧ (∀ x pre suf, create_ident x pre suf = pre ++ x ++ suf)
      ∧ DEFAULT_UPDATED_METHOD_PRE = "updated_"
      ∧ DEFAULT_UPDATED_METHOD_SUF = ""
      ∧ DEFAULT_UPDATE_METHOD_PRE = "update_"
      ∧ DEFAULT_UPDATE_METHOD_SUF = ""
      ∧ DEFAULT_SETTER_METHOD_PRE = "update_"
      ∧ DEFAULT_SETTER_METHOD_SUF = "" := by
  simp only [derive_dynamic]
  rw [hp]
  refine ⟨_, rfl, ?_, fun x pre suf => rfl, rfl, rfl, rfl, rfl, rfl, rfl⟩
  simp [updatedMethodsGo_names, setterMethods, updateMethods, List.map_map,
    Function.comp_def, create_ident, updatedPreOf, updatedSufOf, setterPreOf,
    setterSufOf, updatePreOf, updateSufOf, cfgOf, Dynamic.defaultConfig,
    DEFAULT_UPDATED_METHOD_PRE, DEFAULT_UPDATED_METHOD_SUF,
    DEFAULT_UPDATE_METHOD_PRE, DEFAULT_UPDATE_METHOD_SUF,
    DEFAULT_SETTER_METHOD_PRE, DEFAULT_SETTER_METHOD_SUF]

/-- Witness for C8 at the diamond schema with
`setter_prefix = "set_", setter_suffix = "_value"`. -/
theorem claim_C8_witness :
    parseFields diamondFields = .ok diamondParsed
    ∧ ∃ ms,
      derive_dynamic ⟨"Diamond", .structData (.named diamondFields),
          some ⟨none, none, some "set_", some "_value", none, none⟩⟩ =
        .ok ("Diamond", ms)
      ∧ ms.map Method.name =
          diamondFields.map (fun f => "updated_" ++ f.ident ++ "")
          ++ (partitioned diamondParsed).2.map
              (fun f => "set_" ++ f.ident ++ "_value")
          ++ (partitioned diamondParsed).1.map
              (fun fd => "update_" ++ fd.1.ident ++ "")
      ∧ (∀ x pre suf, create_ident x pre suf = pre ++ x ++ suf)
      ∧ DEFAULT_UPDATED_METHOD_PRE = "updated_"
      ∧ DEFAULT_UPDATED_METHOD_SUF = ""
      ∧ DEFAULT_UPDATE_METHOD_PRE = "update_"
      ∧ DEFAULT_UPDATE_METHOD_SUF = ""
      ∧ DEFAULT_SETTER_METHOD_PRE = "update_"
      ∧ DEFAULT_SETTER_METHOD_SUF = "" :=
  ⟨rfl, claim_C8 "Diamond" "set_" "_value" diamondFields diamondParsed rfl⟩

/-- Direct dependency between field names as declared in the dynamic
attributes: `x`'s declaration lists `y`. -/
def dependsOn (dyns : List (Field × DynamicField)) (x y : String) : Bool :=
  dyns.any (fun fd => decide (fd.1.ident = x ∧ y ∈ fd.2.dependencies))

/-- C9: a cyclic dependency graph is not rejected: generation still
succeeds (the generator is a total function, so it terminates) and emits
exactly the same per-field operation set as for any acyclic schema —
cycles are not a detected error class at generation time. -/
theorem claim_C9 (ident : String) (cfg : Option Dynamic)
    (fs : List Field) (ps : List (Field × Option DynamicField))
    (hp : parseFields fs = .ok ps)
    (hcyc : ∃ x, Relation.TransGen
        (fun a b => dependsOn (partitioned ps).1 a b = true) x x) :
    ∃ ms,
      derive_dynamic ⟨ident, .structData (.named fs), cfg⟩ = .ok (ident, ms)
      ∧ ms.map Method.name =
          fs.map (fun f => create_updated_ident cfg f.ident)
          ++ (partitioned ps).2.map (fun f => create_setter_ident cfg f.ident)
          ++ (partitioned ps).1.map
              (fun fd => create_update_ident cfg fd.1.ident) := by
  clear hcyc
  simp only [derive_dynamic]
  rw [hp]
  refine ⟨_, rfl, ?_⟩
  simp [updatedMethodsGo_names, setterMethods, updateMethods, List.map_map,
    Function.comp_def, create_updated_ident, create_setter_ident,
    create_update_ident]

/-- A two-field schema whose dependency graph is the cycle
`a -> b -> a`. -/
def cyclicFields : List Field :=
  [computedField "a" "u32" ["b"] "calc_a",
   computedField "b" "u32" ["a"] "calc_b"]

/-- The parse result of the cyclic schema. -/
def cyclicParsed : List (Field × Option DynamicField) :=
  [(computedField "a" "u32" ["b"] "calc_a", some ⟨["b"], "calc_a"⟩),
   (computedField "b" "u32" ["a"] "calc_b", some ⟨["a"], "calc_b"⟩)]

/-- Witness for C9 at the cyclic schema `a -> b -> a`. -/
theorem claim_C9_witness :
    (parseFields cyclicFields = .ok cyclicParsed
      ∧ ∃ x, Relation.TransGen
          (fun a b => dependsOn (partitioned cyclicParsed).1 a b = true) x x)
    ∧ ∃ ms,
      derive_dynamic ⟨"Cyc", .structData (.named cyclicFields), none⟩ =
        .ok ("Cyc", ms)
      ∧ ms.map Method.name =
          cyclicFields.map (fun f => create_updated_ident none f.ident)
          ++ (partitioned cyclicParsed).2.map
              (fun f => create_setter_ident none f.ident)
          ++ (partitioned cyclicParsed).1.map
              (fun fd => create_update_ident none fd.1.ident) :=
  ⟨⟨rfl, ⟨"a", Relation.TransGen.head
      (by decide : dependsOn (partitioned cyclicParsed).1 "a" "b" = true)
      (Relation.TransGen.single
        (by decide : dependsOn (partitioned cyclicParsed).1 "b" "a" = true))⟩⟩,
   claim_C9 "Cyc" none cyclicFields cyclicParsed rfl
     ⟨"a", Relation.TransGen.head
       (by decide : dependsOn (partitioned cyclicParsed).1 "a" "b" = true)
       (Relation.TransGen.single
         (by decide : dependsOn (partitioned cyclicParsed).1 "b" "a" = true))⟩⟩

/-- Only the first attribute with the dynamic path is found, whatever
comes after it. -/
theorem find?_dynamic_append (preAttrs postAttrs : List Attr)
    (d : DynamicField)
    (hpre : ∀ a ∈ preAttrs, a.path ≠ DYNAMIC_ATTR_NAME) :
    (preAttrs ++ Attr.mk DYNAMIC_ATTR_NAME (some d) :: postAttrs).find?
        (fun a => a.path = DYNAMIC_ATTR_NAME) =
      some ⟨DYNAMIC_ATTR_NAME, some d⟩ := by
  induction preAttrs with
  | nil =>
    apply List.find?_cons_of_pos
    simp
  | cons a rest ih =>
    have ha := hpre a (by simp)
    rw [List.cons_append, List.find?_cons_of_neg _ (by simp [ha])]
    exact ih (fun a2 h2 => hpre a2 (by simp [h2]))

/-- C10: when a field carries several dynamic attributes, only the first
one (in attribute order) is parsed and fixes the field's dependencies and
compute method; everything after it is ignored without any error — even a
malformed later dynamic attribute. -/
theorem claim_C10 (nm ty : String) (preAttrs postAttrs : List Attr)
    (d : DynamicField)
    (hpre : ∀ a ∈ preAttrs, a.path ≠ DYNAMIC_ATTR_NAME) :
    parseFieldDynamic
        ⟨nm, ty, preAttrs ++ Attr.mk DYNAMIC_ATTR_NAME (some d) :: postAttrs⟩ =
      .ok (⟨nm, ty,
            preAttrs ++ Attr.mk DYNAMIC_ATTR_NAME (some d) :: postAttrs⟩,
           some d) := by
  unfold parseFieldDynamic findDynamicAttr
  rw [find?_dynamic_append preAttrs postAttrs d hpre]

/-- Witness for C10: a field with an inert attribute, then a well-formed
dynamic attribute, then a second (different) dynamic attribute and a
malformed dynamic attribute — parsing uses the first dynamic attribute
and raises no error. -/
theorem claim_C10_witness :
    (∀ a ∈ [Attr.mk "serde" none], a.path ≠ DYNAMIC_ATTR_NAME)
    ∧ parseFieldDynamic
        ⟨"c", "u32", [Attr.mk "serde" none]
          ++ Attr.mk DYNAMIC_ATTR_NAME (some ⟨["a"], "calc_c"⟩)
            :: [Attr.mk DYNAMIC_ATTR_NAME (some ⟨["x"], "other_calc"⟩),
                Attr.mk DYNAMIC_ATTR_NAME none]⟩ =
      .ok (⟨"c", "u32", [Attr.mk "serde" none]
            ++ Attr.mk DYNAMIC_ATTR_NAME (some ⟨["a"], "calc_c"⟩)
              :: [Attr.mk DYNAMIC_ATTR_NAME (some ⟨["x"], "other_calc"⟩),
                  Attr.mk DYNAMIC_ATTR_NAME none]⟩,
           some ⟨["a"], "calc_c"⟩) :=
  ⟨by decide,
   claim_C10 "c" "u32" [Attr.mk "serde" none]
     [Attr.mk DYNAMIC_ATTR_NAME (some ⟨["x"], "other_calc"⟩),
      Attr.mk DYNAMIC_ATTR_NAME none]
     ⟨["a"], "calc_c"⟩ (by decide)⟩

/-! ## Unknown dependency names

The macro never validates dependency names against the field list: an
unknown name only ever produces an `inv_map` entry that no
`updated_methods` iteration consumes.  We make that precise by comparing
a schema against the same schema with the unknown name deleted from every
dependency tuple. -/

/-- Delete the name `z` from a dynamic declaration's dependency tuple. -/
def stripDyn (z : String) (d : DynamicField) : DynamicField :=
  ⟨d.dependencies.filter (fun x => decide (¬ x = z)), d.method_name⟩

/-- Delete the name `z` from a dynamic attribute's dependency tuple. -/
def stripAttr (z : String) (a : Attr) : Attr :=
  if a.path = DYNAMIC_ATTR_NAME then ⟨a.path, a.args.map (stripDyn z)⟩
  else a

/-- Delete the name `z` from all dependency tuples of a field. -/
def stripField (z : String) (f : Field) : Field :=
  ⟨f.ident, f.ty, f.attrs.map (stripAttr z)⟩

theorem stripAttr_path (z : String) (a : Attr) :
    (stripAttr z a).path = a.path := by
  unfold stripAttr
  split <;> rfl

theorem find?_dynamic_map_strip (z : String) : ∀ (l : List Attr),
    (l.map (stripAttr z)).find? (fun a => a.path = DYNAMIC_ATTR_NAME) =
      (l.find? (fun a => a.path = DYNAMIC_ATTR_NAME)).map (stripAttr z) := by
  intro l
  induction l with
  | nil => rfl
  | cons a rest ih =>
    by_cases h : a.path = DYNAMIC_ATTR_NAME
    · rw [List.map_cons, List.find?_cons_of_pos _ (by simp [stripAttr_path, h]),
        List.find?_cons_of_pos _ (by simp [h])]
      rfl
    · rw [List.map_cons, List.find?_cons_of_neg _ (by simp [stripAttr_path, h]),
        List.find?_cons_of_neg _ (by simp [h])]
      exact ih

theorem findDynamicAttr_stripField (z : String) (f : Field) :
    findDynamicAttr (stripField z f) =
      (findDynamicAttr f).map (stripAttr z) := by
  unfold findDynamicAttr stripField
  exact find?_dynamic_map_strip z f.attrs

theorem findDynamicAttr_path {f : Field} {a : Attr}
    (h : findDynamicAttr f = some a) : a.path = DYNAMIC_ATTR_NAME := by
  unfold findDynamicAttr at h
  have h2 := List.find?_some h
  simpa using h2

theorem parseFieldDynamic_stripField (z : String) (f : Field) :
    parseFieldDynamic (stripField z f) =
      (parseFieldDynamic f).map
        (fun p => (stripField z p.1, p.2.map (stripDyn z))) := by
  unfold parseFieldDynamic
  cases hf : findDynamicAttr f with
  | none => rw [findDynamicAttr_stripField, hf]; rfl
  | some a =>
    rw [findDynamicAttr_stripField, hf]
    have hpath := findDynamicAttr_path hf
    simp only [Option.map_some']
    unfold stripAttr
    rw [if_pos hpath]
    cases a.args with
    | none => rfl
    | some d => rfl

theorem parseFields_stripField (z : String) :
    ∀ {fs : List Field} {ps : List (Field × Option DynamicField)},
      parseFields fs = .ok ps →
      parseFields (fs.map (stripField z)) =
        .ok (ps.map (fun p => (stripField z p.1, p.2.map (stripDyn z)))) := by
  intro fs
  induction fs with
  | nil =>
    intro ps h
    simp only [parseFields] at h
    rw [← Except.ok.inj h]
    rfl
  | cons f rest ih =>
    intro ps h
    simp only [parseFields] at h
    cases hpd : parseFieldDynamic f with
    | error e => simp only [hpd] at h; exact Except.noConfusion h
    | ok p =>
      simp only [hpd] at h
      cases hrest : parseFields rest with
      | error e => simp only [hrest] at h; exact Except.noConfusion h
      | ok ps2 =>
        simp only [hrest] at h
        rw [← Except.ok.inj h]
        simp only [List.map_cons, parseFields]
        rw [parseFieldDynamic_stripField, hpd]
        simp only [Except.map]
        rw [ih hrest]

theorem partitioned_map_strip_fst (z : String)
    (ps : List (Field × Option DynamicField)) :
    (partitioned (ps.map
        (fun p => (stripField z p.1, p.2.map (stripDyn z))))).1 =
      (partitioned ps).1.map
        (fun fd => (stripField z fd.1, stripDyn z fd.2)) := by
  induction ps with
  | nil => rfl
  | cons p rest ih =>
    cases hp2 : p.2 with
    | none =>
      simpa [partitioned, List.filterMap_cons, hp2] using ih
    | some d =>
      simpa [partitioned, List.filterMap_cons, hp2] using ih

theorem partitioned_map_strip_snd (z : String)
    (ps : List (Field × Option DynamicField)) :
    (partitioned (ps.map
        (fun p => (stripField z p.1, p.2.map (stripDyn z))))).2 =
      (partitioned ps).2.map (stripField z) := by
  induction ps with
  | nil => rfl
  | cons p rest ih =>
    cases hp2 : p.2 with
    | none =>
      simpa [partitioned, List.filter_cons, hp2] using ih
    | some d =>
      simpa [partitioned, List.filter_cons, hp2] using ih

theorem dependentsOf_map_strip {z y : String}
    (dyns : List (Field × DynamicField)) (hyz : y ≠ z) :
    dependentsOf (dyns.map
        (fun fd => (stripField z fd.1, stripDyn z fd.2))) y =
      dependentsOf dyns y := by
  induction dyns with
  | nil => rfl
  | cons fd rest ih =>
    have hdep : (y ∈ (stripDyn z fd.2).dependencies) =
        (y ∈ fd.2.dependencies) := by
      simp [stripDyn, List.mem_filter, hyz]
    by_cases hy : y ∈ fd.2.dependencies
    · simp only [dependentsOf, List.map_cons, List.filter_cons] at ih ⊢
      rw [if_pos (by simp [hdep, hy]), if_pos (by simp [hy])]
      simpa [dependentsOf, stripField] using ih
    · simp only [dependentsOf, List.map_cons, List.filter_cons] at ih ⊢
      rw [if_neg (by simp [hdep, hy]), if_neg (by simp [hy])]
      simpa [dependentsOf] using ih

/-- C1 (counterexample to the claim as stated): on the schema whose field
`c` declares the dependency `z` although no field `z` exists, generation
does not fail — `derive_dynamic` succeeds; there is no unknown-dependency
validation (the error type of the generator has no such case at all). -/
theorem claim_C1_counterexample :
    (derive_dynamic unknownDepInput).isOk = true
    ∧ ((unknownDepFields.map Field.ident).contains "z") = false
    ∧ findDynamicAttr (computedField "c" "u32" ["z"] "calc_c") =
        some ⟨DYNAMIC_ATTR_NAME, some ⟨["z"], "calc_c"⟩⟩ :=
  ⟨by decide, by decide, rfl⟩

/-- C1 (amended): a dependency name matching no field of the record is
silently ignored: generation succeeds (no validation error of any kind),
and the generated output is identical to that of the schema with the
unknown name deleted from every dependency tuple. -/
theorem claim_C1 (ident : String) (cfg : Option Dynamic)
    (fs : List Field) (ps : List (Field × Option DynamicField)) (z : String)
    (hp : parseFields fs = .ok ps)
    (hnd : (fs.map Field.ident).Nodup)
    (hz : z ∉ fs.map Field.ident) :
    (derive_dynamic ⟨ident, .structData (.named fs), cfg⟩).isOk = true
    ∧ derive_dynamic
        ⟨ident, .structData (.named (fs.map (stripField z))), cfg⟩ =
      derive_dynamic ⟨ident, .structData (.named fs), cfg⟩ := by
  have hmain := derive_dynamic_named ident cfg hp hnd
  have hp2 := parseFields_stripField z hp
  have hident : ∀ f : Field, (stripField z f).ident = f.ident :=
    fun f => rfl
  have hnd2 : ((fs.map (stripField z)).map Field.ident).Nodup := by
    simpa [List.map_map, Function.comp_def] using hnd
  have hstrip := derive_dynamic_named ident cfg hp2 hnd2
  refine ⟨by rw [hmain]; rfl, ?_⟩
  rw [hmain, hstrip]
  rw [partitioned_map_strip_fst, partitioned_map_strip_snd]
  have hA : (fs.map (stripField z)).map
      (fun f =>
        ({ name := create_updated_ident cfg f.ident,
           takesValue := false,
           body := (dependentsOf ((partitioned ps).1.map
               (fun fd => (stripField z fd.1, stripDyn z fd.2))) f.ident).map
             (fun d => Stmt.callMethod (create_update_ident cfg d)) } :
         Method)) =
      fs.map (fun f =>
        ({ name := create_updated_ident cfg f.ident,
           takesValue := false,
           body := (dependentsOf (partitioned ps).1 f.ident).map
             (fun d => Stmt.callMethod (create_update_ident cfg d)) } :
         Method)) := by
    rw [List.map_map]
    apply List.map_congr_left
    intro f hf
    have hfz : f.ident ≠ z := by
      intro hc
      exact hz (hc ▸ List.mem_map_of_mem Field.ident hf)
    simp only [Function.comp_def]
    rw [hident f, dependentsOf_map_strip _ hfz]
  have hB : setterMethods (setterPreOf cfg) (setterSufOf cfg)
      (updatedPreOf cfg) (updatedSufOf cfg)
      ((partitioned ps).2.map (stripField z)) =
      setterMethods (setterPreOf cfg) (setterSufOf cfg)
        (updatedPreOf cfg) (updatedSufOf cfg) (partitioned ps).2 := by
    simp [setterMethods, List.map_map, Function.comp_def, stripField]
  have hC : updateMethods (updatePreOf cfg) (updateSufOf cfg)
      (updatedPreOf cfg) (updatedSufOf cfg)
      ((partitioned ps).1.map
        (fun fd => (stripField z fd.1, stripDyn z fd.2))) =
      updateMethods (updatePreOf cfg) (updateSufOf cfg)
        (updatedPreOf cfg) (updatedSufOf cfg) (partitioned ps).1 := by
    simp [updateMethods, List.map_map, Function.comp_def, stripField,
      stripDyn]
  rw [hA, hB, hC]

/-- The parse result of the unknown-dependency schema. -/
def unknownDepParsed : List (Field × Option DynamicField) :=
  [(storedField "a" "u32", none),
   (computedField "c" "u32" ["z"] "calc_c", some ⟨["z"], "calc_c"⟩)]

/-- Witness for the amended C1 at the unknown-dependency schema. -/
theorem claim_C1_witness :
    (parseFields unknownDepFields = .ok unknownDepParsed
      ∧ (unknownDepFields.map Field.ident).Nodup
      ∧ "z" ∉ unknownDepFields.map Field.ident)
    ∧ (derive_dynamic
        ⟨"Demo", .structData (.named unknownDepFields), none⟩).isOk = true
    ∧ derive_dynamic
        ⟨"Demo",
         .structData (.named (unknownDepFields.map (stripField "z"))),
         none⟩ =
      derive_dynamic ⟨"Demo", .structData (.named unknownDepFields), none⟩ :=
  ⟨⟨rfl, by decide, by decide⟩,
   claim_C1 "Demo" none unknownDepFields unknownDepParsed "z" rfl
     (by decide) (by decide)⟩

end DynStruct
